import Mathlib

/-!
Shallow embedding of the core of the `alx-backend-user-data` repository:
the authentication service (`0x03-user_authentication_service/auth.py`
over the `user.py` record model and the abstract user store of the spec)
and the log redactor (`0x00-personal_data/filtered_logger.py`).

Conventions of the embedding:
* The bcrypt capability is idealized per the spec's black-box contract
  (`hash(plaintext) -> digest`, `verify(digest, plaintext) -> bool`):
  a digest records the salt and the plaintext, and verification is
  plaintext equality.  The random salt of `bcrypt.gensalt()` and the
  random token of `uuid4()` are threaded in as explicit arguments.
* The mutable SQLAlchemy session becomes explicit state passing: the
  store state is the `List User` of persisted records (in insertion
  order; SQL `first()` is the first list element matching the filter).
* Python exceptions become `Except`: `sqlalchemy NoResultFound` is
  `DBError.notFound`, the `ValueError` raised by `DB.update_user` for an
  unknown field name is `DBError.invalidField`, and the `ValueError`s
  raised by `Auth` methods are the constructors of `Err`.
-/

namespace AlxAuth

/-- Idealized bcrypt digest: the spec treats hashing as an external
capability with contract `hash(plaintext) -> digest`,
`verify(digest, plaintext) -> bool`; the digest keeps the salt and the
plaintext so that verification is exact plaintext comparison. -/
structure Digest where
  salt : Nat
  plain : String
deriving DecidableEq

/-- `bcrypt.hashpw(password, salt)`. -/
def hashpw (salt : Nat) (password : String) : Digest :=
  ⟨salt, password⟩

/-- `bcrypt.checkpw(password, digest)`. -/
def checkpw (password : String) (digest : Digest) : Bool :=
  password == digest.plain

/-- `auth._hash_password`: hashes a password with bcrypt; the random
salt from `bcrypt.gensalt()` is an explicit argument. -/
def _hash_password (salt : Nat) (password : String) : Digest :=
  hashpw salt password

/-- The `User` model of `user.py`: id (integer primary key), email,
hashed_password, nullable session_id, nullable reset_token. -/
structure User where
  id : Nat
  email : String
  hashed_password : Digest
  session_id : Option String
  reset_token : Option String
deriving DecidableEq

/-- The keyword filters `Auth` passes to `DB.find_user_by` and that
`DB.update_user` uses internally: exact-match equality on one field. -/
inductive Filter where
  | email (e : String)
  | session_id (s : String)
  | reset_token (t : String)
  | id (i : Nat)
deriving DecidableEq

/-- Whether a record satisfies an exact-match filter (NULL columns never
equal a supplied string). -/
def matchesFilter (f : Filter) (u : User) : Bool :=
  match f with
  | .email e => u.email == e
  | .session_id s => u.session_id == some s
  | .reset_token t => u.reset_token == some t
  | .id i => u.id == i

/-- Store-level failures: `notFound` is sqlalchemy's `NoResultFound`
(the spec's store-level `NotFound`); `invalidField` is the `ValueError`
raised by the store for an unrecognized field name (the spec's
`InvalidField`). -/
inductive DBError where
  | notFound
  | invalidField
deriving DecidableEq

/-- Modelled from the spec: `db.py` is not part of the given sources, so
`DB.find_user_by` follows the UserStore contract of spec section 6 —
exact-match lookup that fails with `NotFound` on zero matches and
returns the first match otherwise. -/
def find_user_by (users : List User) (f : Filter) : Except DBError User :=
  match users with
  | [] => .error .notFound
  | u :: rest => if matchesFilter f u then .ok u else find_user_by rest f

/-- A `**kwargs` update as passed to `DB.update_user`: each field of the
record may be absent (not mentioned) or present with a new value; for
the nullable columns the new value may itself be NULL. -/
structure UserUpdate where
  session_id : Option (Option String) := none
  reset_token : Option (Option String) := none
  hashed_password : Option Digest := none

/-- Overwrites exactly the mentioned fields of a record. -/
def applyUpdate (upd : UserUpdate) (u : User) : User :=
  { u with
    session_id := upd.session_id.getD u.session_id
    reset_token := upd.reset_token.getD u.reset_token
    hashed_password := upd.hashed_password.getD u.hashed_password }

/-- Modelled from the spec: `db.py` is not part of the given sources, so
`DB.update_user` follows the UserStore contract of spec section 6 — it
locates the record by id (failing with the store-level `NotFound` when
the id is unrecognized) and overwrites the mentioned fields in place.
The `InvalidField` failure for an unrecognized field name cannot arise
in this embedding because updates are well-typed, but the constructor
is kept because `Auth.destroy_session` catches exactly that class. -/
def update_user (users : List User) (uid : Nat) (upd : UserUpdate) :
    Except DBError (List User) :=
  match users with
  | [] => .error .notFound
  | u :: rest =>
    if u.id == uid then .ok (applyUpdate upd u :: rest)
    else (update_user rest uid upd).map (u :: ·)

/-- The persistent state seen by `Auth`: the stored records plus the
autoincrement counter the database uses to assign primary keys. -/
structure AuthState where
  users : List User
  nextId : Nat
deriving DecidableEq

/-- Modelled from the spec: `db.py` is not part of the given sources, so
`DB.add_user` follows the UserStore contract of spec section 6 — it
persists a new record (with null session_id and null reset_token, per
spec section 4.1) and assigns its identity. -/
def add_user (st : AuthState) (email : String) (hashed : Digest) :
    User × AuthState :=
  let u : User := ⟨st.nextId, email, hashed, none, none⟩
  (u, ⟨st.users ++ [u], st.nextId + 1⟩)

/-- The `ValueError`s raised by `Auth` methods, named by the spec's
error taxonomy (section 7), plus propagation of an uncaught store
failure. -/
inductive Err where
  | alreadyExists
  | userNotFound
  | invalidToken
  | store (e : DBError)
deriving DecidableEq

/-- `Auth.register_user`: looks up by email; if found raises
`ValueError` (`AlreadyExists`); otherwise hashes the password and
persists a new record. -/
def register_user (st : AuthState) (salt : Nat) (email password : String) :
    Except Err (User × AuthState) :=
  match find_user_by st.users (.email email) with
  | .ok _ => .error .alreadyExists
  | .error .notFound =>
    let hashed := _hash_password salt password
    .ok (add_user st email hashed)
  | .error e => .error (.store e)

/-- `Auth.valid_login`: looks up by email; absent means `False`;
otherwise `bcrypt.checkpw` of the password against the stored hash.
(Lookup can only fail with `NoResultFound`, which the source catches,
so the error match arm is exhaustive over reachable errors.)  The
return type `Bool` reflects that the operation writes nothing. -/
def valid_login (users : List User) (email password : String) : Bool :=
  match find_user_by users (.email email) with
  | .error _ => false
  | .ok user => checkpw password user.hashed_password

/-- `Auth.create_session`: looks up by email; absent means `None`
(returned, not raised); otherwise stores a fresh uuid4 token — the
explicit `tok` argument — as the record's session_id and returns it.
A failure of the underlying update would propagate. -/
def create_session (st : AuthState) (tok : String) (email : String) :
    Except DBError (Option String × AuthState) :=
  match find_user_by st.users (.email email) with
  | .error _ => .ok (none, st)
  | .ok user =>
    match update_user st.users user.id { session_id := some (some tok) } with
    | .error e => .error e
    | .ok users' => .ok (some tok, { st with users := users' })

/-- `Auth.get_user_from_session_id`: `None` input returns `None`
immediately (the source tests `session_id is None`, nothing else);
otherwise looks the store up by session_id, `None` when not found. -/
def get_user_from_session_id (users : List User) (session_id : Option String) :
    Option User :=
  match session_id with
  | none => none
  | some sid =>
    match find_user_by users (.session_id sid) with
    | .error _ => none
    | .ok user => some user

/-- `Auth.destroy_session`: sets the user's session_id to NULL through
`DB.update_user`, catching `except ValueError` — i.e. the store's
`InvalidField` class — and nothing else, so a store-level `NotFound`
(sqlalchemy `NoResultFound`) propagates to the caller. -/
def destroy_session (users : List User) (user_id : Nat) :
    Except DBError (List User) :=
  match update_user users user_id { session_id := some none } with
  | .ok users' => .ok users'
  | .error .invalidField => .ok users
  | .error .notFound => .error .notFound

/-- `Auth.get_reset_password_token`: looks up by email; absent raises
`ValueError` (`UserNotFound`); otherwise stores a fresh uuid4 token —
the explicit `tok` argument — as the record's reset_token and returns
it. -/
def get_reset_password_token (st : AuthState) (tok : String) (email : String) :
    Except Err (String × AuthState) :=
  match find_user_by st.users (.email email) with
  | .error _ => .error .userNotFound
  | .ok user =>
    match update_user st.users user.id { reset_token := some (some tok) } with
    | .error e => .error (.store e)
    | .ok users' => .ok (tok, { st with users := users' })

/-- `Auth.update_password`: looks up by reset_token; absent raises
`ValueError` (`InvalidToken`); otherwise hashes the new password and
issues a single store update writing the new hash and clearing the
reset_token together. -/
def update_password (st : AuthState) (salt : Nat) (reset_token password : String) :
    Except Err AuthState :=
  match find_user_by st.users (.reset_token reset_token) with
  | .error _ => .error .invalidToken
  | .ok user =>
    let hashed := _hash_password salt password
    match update_user st.users user.id
        { hashed_password := some hashed, reset_token := some none } with
    | .error e => .error (.store e)
    | .ok users' => .ok { st with users := users' }

end AlxAuth

namespace AlxRedact

/-!
Embedding of `filter_datum` of `0x00-personal_data/filtered_logger.py`:

    patterns = {
        'extract': lambda x, y: r'(?P<field>{})=[^{}]*'.format('|'.join(x), y),
        'replace': lambda x: r'\g<field>={}'.format(x),
    }
    def filter_datum(fields, redaction, message, separator):
        return re.sub(extract(fields, separator), replace(redaction), message)

The extract pattern is an alternation of the field names, then a
literal `=`, then a greedy run of characters other than the separator
(a single literal character in every use).  `re.sub` replaces each
leftmost non-overlapping match, substituting the matched alternative,
`=`, and the redaction string; Python's alternation takes the first
alternative of the list that lets the whole pattern match at the
current position.  The engine below implements exactly this
specialized pattern family over `List Char`.

Python interpolates the field names, the separator, and the redaction
into the pattern and the replacement template as regex text, not as
literals: a metacharacter inside a field name would change the
pattern's shape (an inner `|` splits the name into two alternatives, a
quantifier or bracket alters or breaks the pattern), a backslash
separator would corrupt the character class, and a backslash in the
redaction would be read as a replacement escape.  This engine
interprets all three literally, so it coincides with `re.sub` exactly
when field names and separator contain no `re` metacharacter
(`pyRegexMeta` below) and the redaction contains no backslash — the
side conditions the token-shape theorem carries; every use in the
repository (plain alphanumeric `PII_FIELDS`, separator `;`, redaction
`***`) satisfies them, as does the degenerate empty-field-list pattern,
whose compiled form `(?P<field>)=[^;]*` contains no interpolated text
beyond the separator.
-/

/-- Whether the pattern (a literal character list) is a prefix of the
input. -/
def litMatch : List Char → List Char → Bool
  | [], _ => true
  | _ :: _, [] => false
  | a :: pat, b :: s => a == b && litMatch pat s

/-- The run `[^sep]*` is greedy: drop characters up to (not including)
the first occurrence of the separator. -/
def dropRun (sep : Char) : List Char → List Char
  | [] => []
  | c :: rest => if c == sep then c :: rest else dropRun sep rest

/-- The alternatives of the compiled pattern, in order: `'|'.join(x)`
of an empty list is the empty string, which the regex reads as a single
empty alternative. -/
def alternatives (fields : List String) : List String :=
  if fields.isEmpty then [""] else fields

/-- The characters Python's `re` module treats specially in a pattern.
A field name or separator containing none of them is interpolated into
the extract pattern as a literal, which is the reading this engine
gives every field name and the separator. -/
def pyRegexMeta : List Char :=
  ['\\', '.', '^', '$', '*', '+', '?', '\x7b', '\x7d', '[', ']', '|', '(', ')']

/-- The first alternative `f` (in pattern order) such that `f=` matches
at the current position; the trailing `[^sep]*` always matches. -/
def firstAlt (alts : List String) (s : List Char) : Option String :=
  match alts with
  | [] => none
  | f :: rest =>
    if litMatch (f.data ++ ['=']) s then some f else firstAlt rest s

/-- `re.sub` of the extract pattern: scan left to right; at each
position, if the pattern matches, emit `field=redaction` and resume
after the matched text (the alternative, the `=`, and the greedy
value run); otherwise the character passes through.  Each step consumes
at least one character, so the scan is driven by a structural fuel
argument that `subScan` instantiates with the input length. -/
def subScanF (alts : List String) (redaction : String) (sep : Char) :
    Nat → List Char → List Char
  | 0, _ => []
  | _ + 1, [] => []
  | fuel + 1, c :: rest =>
    match firstAlt alts (c :: rest) with
    | some f =>
      f.data ++ '=' :: redaction.data ++
        subScanF alts redaction sep fuel (dropRun sep (rest.drop f.data.length))
    | none => c :: subScanF alts redaction sep fuel rest

/-- The scan at its canonical fuel. -/
def subScan (alts : List String) (redaction : String) (sep : Char)
    (s : List Char) : List Char :=
  subScanF alts redaction sep s.length s

/-- `filter_datum(fields, redaction, message, separator)`, with field
names, separator, and redaction interpreted literally; faithful to the
Python function exactly on inputs free of `re` metacharacters in the
fields and separator and of backslashes in the redaction (see the
section comment above). -/
def filter_datum (fields : List String) (redaction : String)
    (message : String) (separator : Char) : String :=
  ⟨subScan (alternatives fields) redaction separator message.data⟩

theorem dropRun_length_le (sep : Char) (l : List Char) :
    (dropRun sep l).length ≤ l.length := by
  induction l with
  | nil => simp [dropRun]
  | cons a t ih =>
    by_cases ha : a == sep
    · simp [dropRun, ha]
    · simp only [dropRun, ha, Bool.false_eq_true, if_false, List.length_cons]
      omega

theorem dropRun_of_not_mem (sep : Char) (l : List Char) (h : sep ∉ l) :
    dropRun sep l = [] := by
  induction l with
  | nil => rfl
  | cons a t ih =>
    simp only [List.mem_cons, not_or] at h
    have ha : (a == sep) = false := by
      simp only [beq_eq_false_iff_ne, ne_eq]
      exact fun hc => h.1 hc.symm
    simp only [dropRun, ha, Bool.false_eq_true, if_false]
    exact ih h.2

theorem dropRun_append_sep (sep : Char) (v t : List Char) (h : sep ∉ v) :
    dropRun sep (v ++ sep :: t) = sep :: t := by
  induction v with
  | nil => simp [dropRun]
  | cons a w ih =>
    simp only [List.mem_cons, not_or] at h
    have ha : (a == sep) = false := by
      simp only [beq_eq_false_iff_ne, ne_eq]
      exact fun hc => h.1 hc.symm
    simp only [List.cons_append, dropRun, ha, Bool.false_eq_true, if_false]
    exact ih h.2

theorem subScanF_fuel_irrel (alts : List String) (red : String) (sep : Char) :
    ∀ (fuel₁ : Nat) (s : List Char) (fuel₂ : Nat),
      s.length ≤ fuel₁ → s.length ≤ fuel₂ →
      subScanF alts red sep fuel₁ s = subScanF alts red sep fuel₂ s := by
  intro fuel₁
  induction fuel₁ with
  | zero =>
    intro s fuel₂ h₁ _
    have : s = [] := List.eq_nil_of_length_eq_zero (Nat.le_zero.mp h₁)
    subst this
    cases fuel₂ <;> rfl
  | succ k ih =>
    intro s fuel₂ h₁ h₂
    cases s with
    | nil => cases fuel₂ <;> rfl
    | cons c rest =>
      cases fuel₂ with
      | zero => simp at h₂
      | succ k₂ =>
        simp only [List.length_cons, Nat.succ_le_succ_iff] at h₁ h₂
        simp only [subScanF]
        cases hfa : firstAlt alts (c :: rest) with
        | none =>
          have := ih rest k₂ h₁ h₂
          simp [this]
        | some f =>
          have hlen : (dropRun sep (rest.drop f.length)).length ≤ rest.length := by
            have ha := dropRun_length_le sep (rest.drop f.length)
            have hb : (rest.drop f.length).length ≤ rest.length := by
              simp [List.length_drop]
            omega
          have hrec := ih (dropRun sep (rest.drop f.length)) k₂
            (le_trans hlen h₁) (le_trans hlen h₂)
          simp [hrec]

theorem subScan_nil (alts : List String) (red : String) (sep : Char) :
    subScan alts red sep [] = [] := rfl

theorem subScan_cons_none (alts : List String) (red : String) (sep : Char)
    (c : Char) (rest : List Char) (h : firstAlt alts (c :: rest) = none) :
    subScan alts red sep (c :: rest) = c :: subScan alts red sep rest := by
  simp [subScan, subScanF, h]

theorem subScan_cons_some (alts : List String) (red : String) (sep : Char)
    (c : Char) (rest : List Char) (f : String)
    (h : firstAlt alts (c :: rest) = some f) :
    subScan alts red sep (c :: rest) =
      f.data ++ '=' :: red.data ++
        subScan alts red sep (dropRun sep (rest.drop f.data.length)) := by
  have hlen : (dropRun sep (rest.drop f.data.length)).length ≤ rest.length := by
    have ha := dropRun_length_le sep (rest.drop f.data.length)
    have hb : (rest.drop f.data.length).length ≤ rest.length := by
      simp [List.length_drop]
    omega
  simp only [subScan, List.length_cons, subScanF, h]
  rw [subScanF_fuel_irrel alts red sep rest.length _ _ hlen (le_refl _)]

/-- A message in the token shape the spec describes: `key=value` tokens
joined by the separator. -/
def joinTokens (sep : Char) : List (String × String) → List Char
  | [] => []
  | [kv] => kv.1.data ++ '=' :: kv.2.data
  | kv :: rest => kv.1.data ++ '=' :: kv.2.data ++ sep :: joinTokens sep rest

/-- The per-token effect the unanchored pattern actually has: a token's
value is replaced by the redaction exactly when some field name is a
suffix of the token's key. -/
def maskTok (alts : List String) (red : String) (kv : String × String) :
    String × String :=
  if alts.any (fun f => f.data.isSuffixOf kv.1.data) then (kv.1, red) else kv

/-- A usable field name: nonempty and free of `=` and the separator. -/
def goodField (sep : Char) (f : String) : Prop :=
  f.data ≠ [] ∧ '=' ∉ f.data ∧ sep ∉ f.data

/-- A key or value free of `=` and the separator. -/
def goodStr (sep : Char) (x : String) : Prop :=
  '=' ∉ x.data ∧ sep ∉ x.data

theorem litMatch_key (fd : List Char) :
    ∀ (k t : List Char), '=' ∉ fd → '=' ∉ k →
      (litMatch (fd ++ ['=']) (k ++ '=' :: t) = true ↔ fd = k) := by
  induction fd with
  | nil =>
    intro k t _ hk
    cases k with
    | nil => simp [litMatch]
    | cons c k' =>
      simp only [List.mem_cons, not_or] at hk
      have hc : ('=' == c) = false := by
        simp only [beq_eq_false_iff_ne, ne_eq]
        exact hk.1
      simp [litMatch, hc]
  | cons a fd' ih =>
    intro k t hfd hk
    simp only [List.mem_cons, not_or] at hfd
    cases k with
    | nil =>
      have ha : (a == '=') = false := by
        simp only [beq_eq_false_iff_ne, ne_eq]
        exact fun h => hfd.1 h.symm
      simp [litMatch, ha]
    | cons c k' =>
      simp only [List.mem_cons, not_or] at hk
      by_cases hac : a = c
      · subst hac
        simp only [List.cons_append, litMatch, beq_self_eq_true, Bool.true_and,
          List.append_eq]
        rw [ih k' t hfd.2 hk.2]
        simp
      · have ha : (a == c) = false := by simp [hac]
        simp [litMatch, ha, hac]

theorem litMatch_no_eq (fd : List Char) :
    ∀ s : List Char, '=' ∉ fd → '=' ∉ s → litMatch (fd ++ ['=']) s = false := by
  induction fd with
  | nil =>
    intro s _ hs
    cases s with
    | nil => rfl
    | cons c s' =>
      simp only [List.mem_cons, not_or] at hs
      have hc : ('=' == c) = false := by
        simp only [beq_eq_false_iff_ne, ne_eq]
        exact hs.1
      simp [litMatch, hc]
  | cons a fd' ih =>
    intro s hfd hs
    simp only [List.mem_cons, not_or] at hfd
    cases s with
    | nil => rfl
    | cons c s' =>
      simp only [List.mem_cons, not_or] at hs
      by_cases hac : a = c
      · subst hac
        simp only [List.cons_append, litMatch, beq_self_eq_true, Bool.true_and]
        exact ih s' hfd.2 hs.2
      · have ha : (a == c) = false := by simp [hac]
        simp [litMatch, ha]

theorem litMatch_run (sep : Char) (fd : List Char) :
    ∀ (v t : List Char), '=' ∉ fd → sep ∉ fd → '=' ∉ v → sep ≠ '=' →
      litMatch (fd ++ ['=']) (v ++ sep :: t) = false := by
  induction fd with
  | nil =>
    intro v t _ _ hv hsep
    cases v with
    | nil =>
      have hc : ('=' == sep) = false := by
        simp only [beq_eq_false_iff_ne, ne_eq]
        exact fun h => hsep h.symm
      simp [litMatch, hc]
    | cons c v' =>
      simp only [List.mem_cons, not_or] at hv
      have hc : ('=' == c) = false := by
        simp only [beq_eq_false_iff_ne, ne_eq]
        exact hv.1
      simp [litMatch, hc]
  | cons a fd' ih =>
    intro v t hfd hsfd hv hsep
    simp only [List.mem_cons, not_or] at hfd hsfd
    cases v with
    | nil =>
      have ha : (a == sep) = false := by
        simp only [beq_eq_false_iff_ne, ne_eq]
        exact fun h => hsfd.1 h.symm
      simp [litMatch, ha]
    | cons c v' =>
      simp only [List.mem_cons, not_or] at hv
      by_cases hac : a = c
      · subst hac
        simp only [List.cons_append, litMatch, beq_self_eq_true, Bool.true_and]
        exact ih v' t hfd.2 hsfd.2 hv.2 hsep
      · have ha : (a == c) = false := by simp [hac]
        simp [litMatch, ha]

theorem litMatch_head_ne (a c : Char) (p s : List Char) (h : a ≠ c) :
    litMatch (a :: p) (c :: s) = false := by
  have ha : (a == c) = false := by simp [h]
  simp [litMatch, ha]

theorem firstAlt_eq_none_iff (alts : List String) (s : List Char) :
    firstAlt alts s = none ↔
      ∀ f ∈ alts, litMatch (f.data ++ ['=']) s = false := by
  induction alts with
  | nil => simp [firstAlt]
  | cons g rest ih =>
    by_cases hg : litMatch (g.data ++ ['=']) s = true
    · rw [firstAlt, if_pos hg]
      constructor
      · intro h; cases h
      · intro h
        exact absurd (h g (List.mem_cons_self g rest)) (by simp [hg])
    · have hg' : litMatch (g.data ++ ['=']) s = false := by
        cases h : litMatch (g.data ++ ['=']) s
        · rfl
        · exact absurd h hg
      rw [firstAlt, if_neg hg, ih]
      simp [hg']

theorem firstAlt_eq_some (alts : List String) (s : List Char) (f : String)
    (h : firstAlt alts s = some f) :
    f ∈ alts ∧ litMatch (f.data ++ ['=']) s = true := by
  induction alts with
  | nil => cases h
  | cons g rest ih =>
    by_cases hg : litMatch (g.data ++ ['=']) s = true
    · rw [firstAlt, if_pos hg] at h
      cases h
      exact ⟨List.mem_cons_self _ _, hg⟩
    · rw [firstAlt, if_neg hg] at h
      obtain ⟨h1, h2⟩ := ih h
      exact ⟨List.mem_cons_of_mem _ h1, h2⟩

theorem subScan_append_pass (alts : List String) (red : String) (sep : Char) :
    ∀ (l t : List Char),
      (∀ l₁ l₂, l = l₁ ++ l₂ → l₂ ≠ [] → firstAlt alts (l₂ ++ t) = none) →
      subScan alts red sep (l ++ t) = l ++ subScan alts red sep t := by
  intro l
  induction l with
  | nil => intro t _; simp
  | cons c l' ih =>
    intro t h
    have h0 : firstAlt alts (c :: (l' ++ t)) = none := by
      have := h [] (c :: l') rfl (by simp)
      simpa using this
    have hrest : subScan alts red sep (l' ++ t) = l' ++ subScan alts red sep t := by
      apply ih
      intro l₁ l₂ hl hne
      exact h (c :: l₁) l₂ (by rw [hl, List.cons_append]) hne
    rw [List.cons_append, subScan_cons_none alts red sep c (l' ++ t) h0, hrest]
    rfl

theorem firstAlt_token_none (alts : List String) (sep : Char)
    (kd vd t l₂ : List Char)
    (halts : ∀ f ∈ alts, f.data ≠ [] ∧ '=' ∉ f.data ∧ sep ∉ f.data)
    (hk : '=' ∉ kd) (hv : '=' ∉ vd) ( _hvs : sep ∉ vd)
    (hsep : sep ≠ '=')
    (ht : t = [] ∨ ∃ t', t = sep :: t')
    (hmiss : ∀ f ∈ alts, ∀ pre, pre ++ f.data ≠ kd)
    (hsplit : ∃ l₁, l₁ ++ l₂ = kd ++ '=' :: vd) (hne : l₂ ≠ []) :
    firstAlt alts (l₂ ++ t) = none := by
  rw [firstAlt_eq_none_iff]
  intro f hf
  obtain ⟨l₁, hsp⟩ := hsplit
  rcases List.append_eq_append_iff.mp hsp with ⟨k₂, hka, hkb⟩ | ⟨c', hca, hcb⟩
  · subst hkb
    have hk₂ : '=' ∉ k₂ := fun hm => hk (hka ▸ List.mem_append_right l₁ hm)
    rw [List.append_assoc, List.cons_append]
    cases hb : litMatch (f.data ++ ['=']) (k₂ ++ '=' :: (vd ++ t)) with
    | false => rfl
    | true =>
      exfalso
      have hfd := (litMatch_key f.data k₂ (vd ++ t) (halts f hf).2.1 hk₂).mp hb
      exact hmiss f hf l₁ (by rw [hfd]; exact hka.symm)
  · cases c' with
    | nil =>
      simp only [List.nil_append] at hcb
      subst hcb
      rw [List.cons_append]
      cases hb : litMatch (f.data ++ ['=']) ('=' :: (vd ++ t)) with
      | false => rfl
      | true =>
        exfalso
        have hfd := (litMatch_key f.data [] (vd ++ t) (halts f hf).2.1
          (by simp)).mp (by simpa using hb)
        exact (halts f hf).1 hfd
    | cons e c'' =>
      have he : e = '=' ∧ vd = c'' ++ l₂ := by
        have := hcb
        rw [List.cons_append] at this
        exact ⟨(List.cons.injEq _ _ _ _).mp this.symm |>.1,
          ((List.cons.injEq _ _ _ _).mp this.symm |>.2).symm⟩
      have hv₂ : '=' ∉ l₂ := fun hm => hv (he.2 ▸ List.mem_append_right c'' hm)
      rcases ht with rfl | ⟨t', rfl⟩
      · rw [List.append_nil]
        exact litMatch_no_eq f.data l₂ (halts f hf).2.1 hv₂
      · exact litMatch_run sep f.data l₂ t' (halts f hf).2.1 (halts f hf).2.2 hv₂ hsep

theorem subScan_token_pass (alts : List String) (red : String) (sep : Char)
    (kd vd t : List Char)
    (halts : ∀ f ∈ alts, f.data ≠ [] ∧ '=' ∉ f.data ∧ sep ∉ f.data)
    (hk : '=' ∉ kd) (hv : '=' ∉ vd) (hvs : sep ∉ vd)
    (hsep : sep ≠ '=')
    (ht : t = [] ∨ ∃ t', t = sep :: t')
    (hmiss : ∀ f ∈ alts, ∀ pre, pre ++ f.data ≠ kd) :
    subScan alts red sep ((kd ++ '=' :: vd) ++ t) =
      (kd ++ '=' :: vd) ++ subScan alts red sep t := by
  apply subScan_append_pass
  intro l₁ l₂ hl hne
  exact firstAlt_token_none alts sep kd vd t l₂ halts hk hv hvs hsep ht hmiss
    ⟨l₁, hl.symm⟩ hne

theorem subScan_token_mask (alts : List String) (red : String) (sep : Char) :
    ∀ (kd vd t : List Char),
      (∀ f ∈ alts, f.data ≠ [] ∧ '=' ∉ f.data ∧ sep ∉ f.data) →
      '=' ∉ kd → '=' ∉ vd → sep ∉ vd → sep ≠ '=' →
      (t = [] ∨ ∃ t', t = sep :: t') →
      (∃ f ∈ alts, ∃ pre, pre ++ f.data = kd) →
      subScan alts red sep (kd ++ '=' :: vd ++ t) =
        kd ++ '=' :: red.data ++ subScan alts red sep t := by
  intro kd
  induction kd with
  | nil =>
    intro vd t halts _ _ _ _ _ hhit
    exfalso
    obtain ⟨f, hf, pre, hpre⟩ := hhit
    have : f.data = [] := (List.append_eq_nil.mp hpre).2
    exact (halts f hf).1 this
  | cons c kl ih =>
    intro vd t halts hk hv hvs hsep ht hhit
    simp only [List.mem_cons, not_or] at hk
    have hkc : '=' ∉ c :: kl := by
      simp only [List.mem_cons, not_or]
      exact hk
    have hscan : subScan alts red sep (dropRun sep (vd ++ t)) =
        subScan alts red sep t := by
      rcases ht with rfl | ⟨t', rfl⟩
      · rw [List.append_nil, dropRun_of_not_mem sep vd hvs]
      · rw [dropRun_append_sep sep vd t' hvs]
    cases hfa : firstAlt alts (c :: (kl ++ '=' :: vd ++ t)) with
    | some f =>
      obtain ⟨hmem, hlit⟩ := firstAlt_eq_some _ _ _ hfa
      have hlit' : litMatch (f.data ++ ['=']) ((c :: kl) ++ '=' :: (vd ++ t)) = true := by
        simpa using hlit
      have hfk : f.data = c :: kl :=
        (litMatch_key f.data (c :: kl) (vd ++ t) (halts f hmem).2.1 hkc).mp hlit'
      have hstep := subScan_cons_some alts red sep c (kl ++ '=' :: vd ++ t) f hfa
      have hdrop : (kl ++ '=' :: vd ++ t).drop f.data.length = vd ++ t := by
        rw [show f.data.length = (kl ++ ['=']).length by simp [hfk]]
        rw [show kl ++ '=' :: vd ++ t = (kl ++ ['=']) ++ (vd ++ t) by simp]
        exact List.drop_left _ _
      rw [show (c :: kl) ++ '=' :: vd ++ t = c :: (kl ++ '=' :: vd ++ t) from rfl]
      rw [hstep, hdrop, hscan, hfk]
    | none =>
      have hal := (firstAlt_eq_none_iff _ _).mp hfa
      have hhit' : ∃ f ∈ alts, ∃ pre, pre ++ f.data = kl := by
        obtain ⟨f, hf, pre, hpre⟩ := hhit
        cases pre with
        | nil =>
          exfalso
          simp only [List.nil_append] at hpre
          have hm : litMatch (f.data ++ ['=']) ((c :: kl) ++ '=' :: (vd ++ t)) = true :=
            (litMatch_key f.data (c :: kl) (vd ++ t) (halts f hf).2.1 hkc).mpr hpre
          have hb := hal f hf
          rw [show c :: (kl ++ '=' :: vd ++ t) = (c :: kl) ++ '=' :: (vd ++ t) by simp] at hb
          rw [hb] at hm
          cases hm
        | cons d pre' =>
          rw [List.cons_append] at hpre
          exact ⟨f, hf, pre', ((List.cons.injEq _ _ _ _).mp hpre).2⟩
      rw [show (c :: kl) ++ '=' :: vd ++ t = c :: (kl ++ '=' :: vd ++ t) from rfl]
      rw [subScan_cons_none alts red sep c _ hfa]
      rw [ih vd t halts hk.2 hv hvs hsep ht hhit']
      rfl

theorem firstAlt_sep_none (alts : List String) (sep : Char) (T : List Char)
    (halts : ∀ f ∈ alts, f.data ≠ [] ∧ '=' ∉ f.data ∧ sep ∉ f.data) :
    firstAlt alts (sep :: T) = none := by
  rw [firstAlt_eq_none_iff]
  intro f hf
  obtain ⟨hne, _, hs⟩ := halts f hf
  cases hfd : f.data with
  | nil => exact absurd hfd hne
  | cons a fd' =>
    have ha : a ≠ sep := by
      intro h
      subst h
      exact hs (by rw [hfd]; exact List.mem_cons_self a fd')
    exact litMatch_head_ne a sep (fd' ++ ['=']) T ha

theorem any_suffix_iff (alts : List String) (kd : List Char) :
    alts.any (fun f => f.data.isSuffixOf kd) = true ↔
      ∃ f ∈ alts, ∃ pre, pre ++ f.data = kd := by
  rw [List.any_eq_true]
  constructor
  · rintro ⟨f, hf, hb⟩
    obtain ⟨pre, hpre⟩ := List.isSuffixOf_iff_suffix.mp hb
    exact ⟨f, hf, pre, hpre⟩
  · rintro ⟨f, hf, pre, hpre⟩
    exact ⟨f, hf, List.isSuffixOf_iff_suffix.mpr ⟨pre, hpre⟩⟩

theorem subScan_joinTokens (alts : List String) (red : String) (sep : Char)
    (halts : ∀ f ∈ alts, f.data ≠ [] ∧ '=' ∉ f.data ∧ sep ∉ f.data)
    (hsep : sep ≠ '=') :
    ∀ toks : List (String × String),
      (∀ kv ∈ toks, ('=' ∉ (kv.1 : String).data ∧ sep ∉ (kv.1 : String).data) ∧
        ('=' ∉ (kv.2 : String).data ∧ sep ∉ (kv.2 : String).data)) →
      subScan alts red sep (joinTokens sep toks) =
        joinTokens sep (toks.map (maskTok alts red)) := by
  intro toks
  induction toks with
  | nil => intro _; rfl
  | cons kv rest ih =>
    intro htoks
    have hkv := htoks kv (List.mem_cons_self _ _)
    cases rest with
    | nil =>
      by_cases hhit : alts.any (fun f => f.data.isSuffixOf kv.1.data) = true
      · have hex := (any_suffix_iff alts kv.1.data).mp hhit
        have := subScan_token_mask alts red sep kv.1.data kv.2.data [] halts
          hkv.1.1 hkv.2.1 hkv.2.2 hsep (Or.inl rfl) hex
        rw [List.append_nil] at this
        simp only [joinTokens, List.map_cons, List.map_nil, maskTok, hhit, if_true]
        rw [this, subScan_nil, List.append_nil]
      · have hhit' : alts.any (fun f => f.data.isSuffixOf kv.1.data) = false := by
          cases h : alts.any (fun f => f.data.isSuffixOf kv.1.data)
          · rfl
          · exact absurd h hhit
        have hmiss : ∀ f ∈ alts, ∀ pre, pre ++ f.data ≠ kv.1.data := by
          intro f hf pre hpre
          exact hhit ((any_suffix_iff alts kv.1.data).mpr ⟨f, hf, pre, hpre⟩)
        have := subScan_token_pass alts red sep kv.1.data kv.2.data [] halts
          hkv.1.1 hkv.2.1 hkv.2.2 hsep (Or.inl rfl) hmiss
        rw [List.append_nil, subScan_nil, List.append_nil] at this
        simp only [joinTokens, List.map_cons, List.map_nil, maskTok, hhit',
          Bool.false_eq_true, if_false]
        exact this
    | cons kv2 rest2 =>
      have hrest : ∀ kv' ∈ kv2 :: rest2,
          ('=' ∉ (kv'.1 : String).data ∧ sep ∉ (kv'.1 : String).data) ∧
          ('=' ∉ (kv'.2 : String).data ∧ sep ∉ (kv'.2 : String).data) :=
        fun kv' h => htoks kv' (List.mem_cons_of_mem kv h)
      have hsepT : subScan alts red sep (sep :: joinTokens sep (kv2 :: rest2)) =
          sep :: joinTokens sep ((kv2 :: rest2).map (maskTok alts red)) := by
        rw [subScan_cons_none alts red sep sep _
          (firstAlt_sep_none alts sep _ halts)]
        rw [ih hrest]
      have hjoin : joinTokens sep (kv :: kv2 :: rest2) =
          (kv.1.data ++ '=' :: kv.2.data) ++ sep :: joinTokens sep (kv2 :: rest2) := by
        simp [joinTokens]
      by_cases hhit : alts.any (fun f => f.data.isSuffixOf kv.1.data) = true
      · have hex := (any_suffix_iff alts kv.1.data).mp hhit
        have hstep := subScan_token_mask alts red sep kv.1.data kv.2.data
          (sep :: joinTokens sep (kv2 :: rest2)) halts
          hkv.1.1 hkv.2.1 hkv.2.2 hsep (Or.inr ⟨_, rfl⟩) hex
        rw [hjoin]
        rw [show (kv.1.data ++ '=' :: kv.2.data) ++ sep :: joinTokens sep (kv2 :: rest2)
            = kv.1.data ++ '=' :: kv.2.data ++ sep :: joinTokens sep (kv2 :: rest2) by
          simp]
        rw [hstep, hsepT]
        simp [joinTokens, maskTok, hhit]
      · have hhit' : alts.any (fun f => f.data.isSuffixOf kv.1.data) = false := by
          cases h : alts.any (fun f => f.data.isSuffixOf kv.1.data)
          · rfl
          · exact absurd h hhit
        have hmiss : ∀ f ∈ alts, ∀ pre, pre ++ f.data ≠ kv.1.data := by
          intro f hf pre hpre
          exact hhit ((any_suffix_iff alts kv.1.data).mpr ⟨f, hf, pre, hpre⟩)
        have hstep := subScan_token_pass alts red sep kv.1.data kv.2.data
          (sep :: joinTokens sep (kv2 :: rest2)) halts
          hkv.1.1 hkv.2.1 hkv.2.2 hsep (Or.inr ⟨_, rfl⟩) hmiss
        rw [hjoin, hstep, hsepT]
        simp [joinTokens, maskTok, hhit']

end AlxRedact

namespace AlxAuth

theorem find_user_by_none (f : Filter) :
    ∀ users : List User, (∀ v ∈ users, matchesFilter f v = false) →
      find_user_by users f = .error .notFound := by
  intro users
  induction users with
  | nil => intro _; rfl
  | cons w rest ih =>
    intro h
    have hw := h w (List.mem_cons_self _ _)
    simp only [find_user_by, hw, Bool.false_eq_true, if_false]
    exact ih (fun v hv => h v (List.mem_cons_of_mem _ hv))

theorem find_user_by_first (f : Filter) :
    ∀ (l1 : List User) (u : User) (l2 : List User),
      (∀ v ∈ l1, matchesFilter f v = false) → matchesFilter f u = true →
      find_user_by (l1 ++ u :: l2) f = .ok u := by
  intro l1
  induction l1 with
  | nil =>
    intro u l2 _ hu
    simp [find_user_by, hu]
  | cons w l1' ih =>
    intro u l2 h hu
    have hw := h w (List.mem_cons_self _ _)
    simp only [List.cons_append, find_user_by, hw, Bool.false_eq_true, if_false]
    exact ih u l2 (fun v hv => h v (List.mem_cons_of_mem _ hv)) hu

theorem find_user_by_eq_find? (users : List User) (f : Filter) :
    find_user_by users f = match users.find? (matchesFilter f) with
      | some u => .ok u
      | none => .error .notFound := by
  induction users with
  | nil => rfl
  | cons w rest ih =>
    by_cases hw : matchesFilter f w = true
    · rw [find_user_by, if_pos hw, List.find?_cons_of_pos rest hw]
    · have hw' : matchesFilter f w = false := by
        cases h : matchesFilter f w
        · rfl
        · exact absurd h hw
      rw [find_user_by, if_neg hw, List.find?_cons_of_neg rest (by simp [hw']), ih]

theorem update_user_found :
    ∀ (l1 : List User) (u : User) (l2 : List User) (upd : UserUpdate),
      (∀ v ∈ l1, v.id ≠ u.id) →
      update_user (l1 ++ u :: l2) u.id upd = .ok (l1 ++ applyUpdate upd u :: l2) := by
  intro l1
  induction l1 with
  | nil =>
    intro u l2 upd _
    simp [update_user]
  | cons w l1' ih =>
    intro u l2 upd h
    have hw : (w.id == u.id) = false := by
      simp only [beq_eq_false_iff_ne, ne_eq]
      exact h w (List.mem_cons_self _ _)
    simp only [List.cons_append, update_user, hw, Bool.false_eq_true, if_false,
      List.append_eq]
    rw [ih u l2 upd (fun v hv => h v (List.mem_cons_of_mem _ hv))]
    rfl

theorem update_user_none :
    ∀ (users : List User) (uid : Nat) (upd : UserUpdate),
      (∀ v ∈ users, v.id ≠ uid) →
      update_user users uid upd = .error .notFound := by
  intro users
  induction users with
  | nil => intro _ _ _; rfl
  | cons w rest ih =>
    intro uid upd h
    have hw : (w.id == uid) = false := by
      simp only [beq_eq_false_iff_ne, ne_eq]
      exact h w (List.mem_cons_self _ _)
    simp only [update_user, hw, Bool.false_eq_true, if_false]
    rw [ih uid upd (fun v hv => h v (List.mem_cons_of_mem _ hv))]
    rfl

theorem nodup_split (l1 : List User) (u : User) (l2 : List User)
    (h : ((l1 ++ u :: l2).map User.id).Nodup) :
    (∀ v ∈ l1, v.id ≠ u.id) ∧ (∀ v ∈ l2, v.id ≠ u.id) := by
  rw [List.map_append, List.map_cons, List.nodup_append] at h
  obtain ⟨h1, h2, hdisj⟩ := h
  rw [List.nodup_cons] at h2
  constructor
  · intro v hv hEq
    exact hdisj (List.mem_map_of_mem User.id hv)
      (by rw [hEq]; exact List.mem_cons_self _ _)
  · intro v hv hEq
    exact h2.1 (by rw [← hEq]; exact List.mem_map_of_mem User.id hv)

end AlxAuth

namespace AlxAuth

/-- A sample stored record used for closed instances. -/
def uW : User := ⟨0, "a@b", ⟨3, "pw"⟩, none, none⟩

/-- C9: `valid_login` never raises — it is a total Boolean function of
the store state: if no record's email matches it returns `false`, and
if the first matching record is `u` it returns exactly
`checkpw password u.hashed_password`; it only reads the state and
returns a `Bool`, so no store write occurs. -/
theorem C9_valid_login_spec (users : List User) (e p : String) :
    ((∀ v ∈ users, v.email ≠ e) → valid_login users e p = false) ∧
    (∀ u : User, users.find? (fun v => v.email == e) = some u →
      valid_login users e p = checkpw p u.hashed_password) := by
  constructor
  · intro h
    have hf : find_user_by users (.email e) = .error .notFound :=
      find_user_by_none _ users (fun v hv => by simp [matchesFilter, h v hv])
    simp [valid_login, hf]
  · intro u hu
    have hu' : users.find? (matchesFilter (.email e)) = some u := hu
    have hf : find_user_by users (.email e) = .ok u := by
      rw [find_user_by_eq_find?, hu']
    simp [valid_login, hf]

/-- Closed instance of C9 at a one-record store: a miss returns false
and a hit returns the verification result. -/
theorem C9_witness :
    ((∀ v ∈ [uW], v.email ≠ "zz") ∧ valid_login [uW] "zz" "x" = false) ∧
    (([uW].find? (fun v => v.email == "a@b") = some uW) ∧
      valid_login [uW] "a@b" "pw" = checkpw "pw" uW.hashed_password) :=
  ⟨⟨by decide, (C9_valid_login_spec [uW] "zz" "x").1 (by decide)⟩,
   ⟨by decide, (C9_valid_login_spec [uW] "a@b" "pw").2 uW (by decide)⟩⟩

/-- C8: `create_session` on an email with no matching record returns
`None` (not an error) and the returned state is the input state — no
record is written. -/
theorem C8_create_session_missing (st : AuthState) (tok e : String)
    (h : ∀ v ∈ st.users, v.email ≠ e) :
    create_session st tok e = .ok (none, st) := by
  have hf : find_user_by st.users (.email e) = .error .notFound :=
    find_user_by_none _ _ (fun v hv => by simp [matchesFilter, h v hv])
  simp [create_session, hf]

/-- Closed instance of C8: a missing email leaves the one-record store
untouched and yields `None`. -/
theorem C8_witness :
    (∀ v ∈ [uW], v.email ≠ "missing@x.com") ∧
    create_session ⟨[uW], 1⟩ "tok" "missing@x.com" = .ok (none, ⟨[uW], 1⟩) :=
  ⟨by decide, C8_create_session_missing ⟨[uW], 1⟩ "tok" "missing@x.com" (by decide)⟩

/-- C5 fails as stated: the source only short-circuits on `None`
(`session_id is None`), so the empty string is looked up in the store
like any other value; a record whose session_id is the empty string is
returned, not absent. -/
theorem C5_counterexample :
    get_user_from_session_id [⟨1, "e@x", ⟨0, "p"⟩, some "", none⟩] (some "") =
      some ⟨1, "e@x", ⟨0, "p"⟩, some "", none⟩ ∧
    get_user_from_session_id [⟨1, "e@x", ⟨0, "p"⟩, some "", none⟩] (some "") ≠
      none :=
  ⟨rfl, by decide⟩

/-- C5 amended: `resolve_session` returns absent immediately only for
an absent (`None`) session id; every present session id — the empty
string included — is looked up in the store, returning the first
matching record or absent when none matches. -/
theorem C5_resolve_session (users : List User) :
    get_user_from_session_id users none = none ∧
    ∀ sid : String,
      get_user_from_session_id users (some sid) =
        users.find? (fun v => v.session_id == some sid) := by
  constructor
  · rfl
  · intro sid
    have heq := find_user_by_eq_find? users (.session_id sid)
    have hpred : users.find? (matchesFilter (.session_id sid)) =
        users.find? (fun v => v.session_id == some sid) := rfl
    cases hq : users.find? (fun v => v.session_id == some sid) with
    | none =>
      rw [hpred, hq] at heq
      simp [get_user_from_session_id, heq, hq]
    | some u =>
      rw [hpred, hq] at heq
      simp [get_user_from_session_id, heq, hq]

end AlxAuth

namespace AlxRedact

/-- C10: with an empty field list the joined pattern degenerates to a
single empty alternative, so every value run following an `=` is
masked — the empty field set is not the identity transformation. -/
theorem C10_empty_fields :
    filter_datum [] "***" "name=Bob;city=NYC" ';' = "name=***;city=***" ∧
    filter_datum [] "***" "name=Bob;city=NYC" ';' ≠ "name=Bob;city=NYC" :=
  ⟨rfl, by decide⟩

/-- C4 fails as stated: the extract pattern is not anchored to the
start of a token, so the key `username` — not a member of the field
set `["name"]` — still has its value masked, because `name` is a
suffix of it; the token does not pass through unchanged. -/
theorem C4_counterexample :
    ¬ ("username" ∈ (["name"] : List String)) ∧
    filter_datum ["name"] "***" "username=Bob" ';' ≠ "username=Bob" ∧
    filter_datum ["name"] "***" "username=Bob" ';' = "username=***" :=
  ⟨by decide, by decide, rfl⟩

/-- C4 amended: for regex-literal field names — nonempty, free of `=`,
of the separator, and of every `re` metacharacter, so that Python
interpolates each name into the pattern as itself — with a
metacharacter-free separator other than `=` and a backslash-free mask,
on a separator-delimited `key=value` message (keys and values free of
`=` and of the separator): a token's value is replaced by the mask
exactly when some field name is a suffix of the token's key —
whole-key matches included, but also proper-suffix matches; every
other token passes through unchanged, in its original position, and
matching is case-sensitive (character equality). -/
theorem C4_filter_datum_tokens (fields : List String) (red : String) (sep : Char)
    (toks : List (String × String))
    (hne : fields ≠ [])
    (hfields : ∀ f ∈ fields, f.data ≠ [] ∧ '=' ∉ f.data ∧ sep ∉ f.data)
    ( _hmeta : ∀ f ∈ fields, ∀ c ∈ (f : String).data, c ∉ pyRegexMeta)
    ( _hsepm : sep ∉ pyRegexMeta)
    ( _hredm : '\\' ∉ red.data)
    (htoks : ∀ kv ∈ toks, ('=' ∉ (kv.1 : String).data ∧ sep ∉ (kv.1 : String).data) ∧
        ('=' ∉ (kv.2 : String).data ∧ sep ∉ (kv.2 : String).data))
    (hsep : sep ≠ '=') :
    filter_datum fields red ⟨joinTokens sep toks⟩ sep =
      ⟨joinTokens sep (toks.map (maskTok fields red))⟩ := by
  have halt : alternatives fields = fields := by
    rw [alternatives, if_neg]
    simpa [List.isEmpty_iff] using hne
  calc filter_datum fields red ⟨joinTokens sep toks⟩ sep
      = ⟨subScan (alternatives fields) red sep (joinTokens sep toks)⟩ := rfl
    _ = ⟨joinTokens sep (toks.map (maskTok fields red))⟩ := by
        rw [halt, subScan_joinTokens fields red sep hfields hsep toks htoks]

/-- Closed instance of C4 as amended: the regex-literal field `name`
masks the `username` token (suffix match) and leaves `city` untouched. -/
theorem C4_witness :
    ((["name"] : List String) ≠ [] ∧
      (∀ f ∈ (["name"] : List String), f.data ≠ [] ∧ '=' ∉ f.data ∧ ';' ∉ f.data) ∧
      (∀ f ∈ (["name"] : List String), ∀ c ∈ (f : String).data, c ∉ pyRegexMeta) ∧
      (';' : Char) ∉ pyRegexMeta ∧ '\\' ∉ "***".data ∧
      (';' : Char) ≠ '=') ∧
    filter_datum ["name"] "***" ⟨joinTokens ';' [("username", "Bob"), ("city", "NYC")]⟩ ';' =
      ⟨joinTokens ';' ([("username", "Bob"), ("city", "NYC")].map (maskTok ["name"] "***"))⟩ :=
  ⟨⟨by decide, by decide, by decide, by decide, by decide, by decide⟩,
    C4_filter_datum_tokens ["name"] "***" ';' [("username", "Bob"), ("city", "NYC")]
      (by decide) (by decide) (by decide) (by decide) (by decide) (by decide) (by decide)⟩

end AlxRedact

namespace AlxAuth

/-- C1: `update_password` with a reset token no record holds fails with
`InvalidToken` (the raised `ValueError` returns no new state, so no
record changes); with a held token, the single store update writes the
new hash and clears the reset token together on the first matching
record, and every other record is unchanged. -/
theorem C1_update_password_spec (salt : Nat) (t pw : String) :
    (∀ st : AuthState, (∀ v ∈ st.users, v.reset_token ≠ some t) →
      update_password st salt t pw = .error .invalidToken) ∧
    (∀ (n : Nat) (l1 l2 : List User) (u : User),
      (∀ v ∈ l1, v.reset_token ≠ some t) → u.reset_token = some t →
      ((l1 ++ u :: l2).map User.id).Nodup →
      update_password ⟨l1 ++ u :: l2, n⟩ salt t pw =
        .ok ⟨l1 ++ { u with
          hashed_password := _hash_password salt pw
          reset_token := none } :: l2, n⟩) := by
  constructor
  · intro st h
    have hf : find_user_by st.users (.reset_token t) = .error .notFound :=
      find_user_by_none _ _ (fun v hv => by simp [matchesFilter, h v hv])
    simp [update_password, hf]
  · intro n l1 l2 u h1 hu hnd
    have hf : find_user_by (l1 ++ u :: l2) (.reset_token t) = .ok u :=
      find_user_by_first _ l1 u l2
        (fun v hv => by simp [matchesFilter, h1 v hv])
        (by simp [matchesFilter, hu])
    have hl1 := (nodup_split l1 u l2 hnd).1
    have hup := update_user_found l1 u l2
      { hashed_password := some (_hash_password salt pw), reset_token := some none } hl1
    simp [update_password, hf, hup, applyUpdate]

/-- A record holding the reset token `tk`, for closed instances. -/
def uR : User := ⟨2, "r@x", ⟨1, "old"⟩, none, some "tk"⟩

/-- Closed instance of C1: an unknown token fails with `InvalidToken`;
the held token rewrites hash and reset token together. -/
theorem C1_witness :
    (∀ v ∈ [uR], v.reset_token ≠ some "zz") ∧
    update_password ⟨[uR], 7⟩ 9 "zz" "new" = .error .invalidToken ∧
    uR.reset_token = some "tk" ∧
    update_password ⟨[uR], 7⟩ 9 "tk" "new" =
      .ok ⟨[{ uR with
        hashed_password := _hash_password 9 "new"
        reset_token := none }], 7⟩ :=
  ⟨by decide,
   (C1_update_password_spec 9 "zz" "new").1 ⟨[uR], 7⟩ (by decide),
   by decide,
   (C1_update_password_spec 9 "tk" "new").2 7 [] [] uR (by decide) (by decide)
     (by decide)⟩

/-- C2 fails as stated: the claim quantifies over all passwords `p`,
`p2`, but at `p2 = p` the final conjunct is wrong — after the failed
duplicate registration, `validate_login(e, p2)` is `true`, not
`false`. -/
theorem C2_counterexample :
    register_user ⟨[], 0⟩ 5 "a@b.c" "pw" =
      .ok (⟨0, "a@b.c", ⟨5, "pw"⟩, none, none⟩,
        ⟨[⟨0, "a@b.c", ⟨5, "pw"⟩, none, none⟩], 1⟩) ∧
    register_user ⟨[⟨0, "a@b.c", ⟨5, "pw"⟩, none, none⟩], 1⟩ 6 "a@b.c" "pw" =
      .error .alreadyExists ∧
    valid_login [⟨0, "a@b.c", ⟨5, "pw"⟩, none, none⟩] "a@b.c" "pw" ≠ false :=
  ⟨rfl, rfl, by decide⟩

/-- C2 amended (adds `p ≠ p2`): a first registration of a fresh email
succeeds, the duplicate fails with `AlreadyExists`, and the stored
hash — unchanged by the failed call — validates `p` and rejects `p2`. -/
theorem C2_register_twice (st : AuthState) (salt1 salt2 : Nat) (e p p2 : String)
    (hnew : ∀ v ∈ st.users, v.email ≠ e) (hne : p ≠ p2) :
    ∃ u st1, register_user st salt1 e p = .ok (u, st1) ∧
      register_user st1 salt2 e p2 = .error .alreadyExists ∧
      valid_login st1.users e p = true ∧
      valid_login st1.users e p2 = false := by
  have hf : find_user_by st.users (.email e) = .error .notFound :=
    find_user_by_none _ _ (fun v hv => by simp [matchesFilter, hnew v hv])
  refine ⟨⟨st.nextId, e, _hash_password salt1 p, none, none⟩,
    ⟨st.users ++ [⟨st.nextId, e, _hash_password salt1 p, none, none⟩],
      st.nextId + 1⟩, ?_, ?_, ?_, ?_⟩
  · simp [register_user, hf, add_user]
  · have hf2 : find_user_by
        (st.users ++ [⟨st.nextId, e, _hash_password salt1 p, none, none⟩])
        (.email e) = .ok ⟨st.nextId, e, _hash_password salt1 p, none, none⟩ :=
      find_user_by_first _ st.users _ []
        (fun v hv => by simp [matchesFilter, hnew v hv])
        (by simp [matchesFilter])
    simp [register_user, hf2]
  · have hf2 : find_user_by
        (st.users ++ [⟨st.nextId, e, _hash_password salt1 p, none, none⟩])
        (.email e) = .ok ⟨st.nextId, e, _hash_password salt1 p, none, none⟩ :=
      find_user_by_first _ st.users _ []
        (fun v hv => by simp [matchesFilter, hnew v hv])
        (by simp [matchesFilter])
    simp only [valid_login]
    rw [hf2]
    simp [checkpw, _hash_password, hashpw]
  · have hf2 : find_user_by
        (st.users ++ [⟨st.nextId, e, _hash_password salt1 p, none, none⟩])
        (.email e) = .ok ⟨st.nextId, e, _hash_password salt1 p, none, none⟩ :=
      find_user_by_first _ st.users _ []
        (fun v hv => by simp [matchesFilter, hnew v hv])
        (by simp [matchesFilter])
    have hne' : ¬ p2 = p := fun h => hne h.symm
    simp only [valid_login]
    rw [hf2]
    simp [checkpw, _hash_password, hashpw, hne']

/-- Closed instance of C2 as amended, from the empty store. -/
theorem C2_witness :
    (∀ v ∈ ([] : List User), v.email ≠ "e@x") ∧ "pw" ≠ "qw" ∧
    (∃ u st1, register_user ⟨[], 0⟩ 5 "e@x" "pw" = .ok (u, st1) ∧
      register_user st1 6 "e@x" "qw" = .error .alreadyExists ∧
      valid_login st1.users "e@x" "pw" = true ∧
      valid_login st1.users "e@x" "qw" = false) :=
  ⟨by decide, by decide,
   C2_register_twice ⟨[], 0⟩ 5 6 "e@x" "pw" "qw" (by decide) (by decide)⟩

/-- C3 fails as stated: with the store modelled from the spec's
contract (update fails with the store-level `NotFound` when the id is
unrecognized), `destroy_session` on an id with no matching record
surfaces that error, because the source catches only `ValueError`
(`InvalidField`), not `NoResultFound`. -/
theorem C3_counterexample :
    destroy_session ([] : List User) 1 = .error .notFound := rfl

/-- C3 amended: `destroy_session` swallows only the `ValueError`
(`InvalidField`) failure class; when no record has the given user id
the store-level `NotFound` propagates to the caller; on a store that
does contain the id it succeeds, and a second consecutive call
succeeds as well. -/
theorem C3_destroy_session (uid : Nat) :
    (∀ users : List User, (∀ v ∈ users, v.id ≠ uid) →
      destroy_session users uid = .error .notFound) ∧
    (∀ (l1 l2 : List User) (u : User), u.id = uid → (∀ v ∈ l1, v.id ≠ uid) →
      destroy_session (l1 ++ u :: l2) uid =
        .ok (l1 ++ { u with session_id := none } :: l2) ∧
      destroy_session (l1 ++ { u with session_id := none } :: l2) uid =
        .ok (l1 ++ { u with session_id := none } :: l2)) := by
  constructor
  · intro users h
    have hup := update_user_none users uid { session_id := some none } h
    simp [destroy_session, hup]
  · intro l1 l2 u huid h1
    subst huid
    have hup := update_user_found l1 u l2 { session_id := some none } h1
    constructor
    · simp [destroy_session, hup, applyUpdate]
    · have h1' : ∀ v ∈ l1, v.id ≠ ({ u with session_id := none } : User).id := h1
      have hup2 := update_user_found l1 { u with session_id := none } l2
        { session_id := some none } h1'
      simp [destroy_session, hup2, applyUpdate]

/-- A record with a live session, for closed instances. -/
def uS : User := ⟨4, "s@x", ⟨2, "pw"⟩, some "sess", none⟩

/-- Closed instance of C3 as amended: a missing id errors, a present id
succeeds twice in a row. -/
theorem C3_witness :
    (∀ v ∈ ([] : List User), v.id ≠ 9) ∧
    destroy_session ([] : List User) 9 = .error .notFound ∧
    uS.id = 4 ∧
    (destroy_session [uS] 4 = .ok [{ uS with session_id := none }] ∧
      destroy_session [{ uS with session_id := none }] 4 =
        .ok [{ uS with session_id := none }]) :=
  ⟨by decide, (C3_destroy_session 9).1 [] (by decide), by decide,
   (C3_destroy_session 4).2 [] [] uS (by decide) (by decide)⟩

end AlxAuth

namespace AlxAuth

/-- C6: for a registered email, `create_session` stores the fresh token
on that user's record and returns it; `resolve_session` of the token
then returns that same record; after `destroy_session(user.id)`,
`resolve_session` of the token returns absent.  Freshness of the
generated token (spec: collision-resistant uuid4) and distinct primary
keys are hypotheses. -/
theorem C6_session_roundtrip (n : Nat) (l1 l2 : List User) (u : User)
    (tok e : String)
    (hfirst : ∀ v ∈ l1, v.email ≠ e) (hemail : u.email = e)
    (hfresh : ∀ v ∈ l1 ++ u :: l2, v.session_id ≠ some tok)
    (hids : ((l1 ++ u :: l2).map User.id).Nodup) :
    create_session ⟨l1 ++ u :: l2, n⟩ tok e =
      .ok (some tok, ⟨l1 ++ { u with session_id := some tok } :: l2, n⟩) ∧
    get_user_from_session_id (l1 ++ { u with session_id := some tok } :: l2)
      (some tok) = some { u with session_id := some tok } ∧
    destroy_session (l1 ++ { u with session_id := some tok } :: l2) u.id =
      .ok (l1 ++ { u with session_id := none } :: l2) ∧
    get_user_from_session_id (l1 ++ { u with session_id := none } :: l2)
      (some tok) = none := by
  obtain ⟨hl1, hl2⟩ := nodup_split l1 u l2 hids
  have hfl1 : ∀ v ∈ l1, v.session_id ≠ some tok :=
    fun v hv => hfresh v (List.mem_append_left _ hv)
  have hfl2 : ∀ v ∈ l2, v.session_id ≠ some tok :=
    fun v hv => hfresh v (List.mem_append_right _ (List.mem_cons_of_mem _ hv))
  refine ⟨?_, ?_, ?_, ?_⟩
  · have hf : find_user_by (l1 ++ u :: l2) (.email e) = .ok u :=
      find_user_by_first _ l1 u l2
        (fun v hv => by simp [matchesFilter, hfirst v hv])
        (by simp [matchesFilter, hemail])
    have hup := update_user_found l1 u l2 { session_id := some (some tok) } hl1
    simp [create_session, hf, hup, applyUpdate]
  · have hf : find_user_by (l1 ++ { u with session_id := some tok } :: l2)
        (.session_id tok) = .ok { u with session_id := some tok } :=
      find_user_by_first _ l1 _ l2
        (fun v hv => by simp [matchesFilter, hfl1 v hv])
        (by simp [matchesFilter])
    simp [get_user_from_session_id, hf]
  · have hl1' : ∀ v ∈ l1, v.id ≠ ({ u with session_id := some tok } : User).id := hl1
    have hup := update_user_found l1 { u with session_id := some tok } l2
      { session_id := some none } hl1'
    simp [destroy_session, hup, applyUpdate]
  · have hnone : find_user_by (l1 ++ { u with session_id := none } :: l2)
        (.session_id tok) = .error .notFound := by
      apply find_user_by_none
      intro v hv
      rcases List.mem_append.mp hv with h | h
      · simp [matchesFilter, hfl1 v h]
      · rcases List.mem_cons.mp h with rfl | h2
        · simp [matchesFilter]
        · simp [matchesFilter, hfl2 v h2]
    simp [get_user_from_session_id, hnone]

/-- Closed instance of C6: round trip on a one-record store. -/
theorem C6_witness :
    (uW.email = "a@b" ∧ (∀ v ∈ [uW], v.session_id ≠ some "t1") ∧
      ([uW].map User.id).Nodup) ∧
    (create_session ⟨[uW], 1⟩ "t1" "a@b" =
      .ok (some "t1", ⟨[{ uW with session_id := some "t1" }], 1⟩) ∧
    get_user_from_session_id [{ uW with session_id := some "t1" }] (some "t1") =
      some { uW with session_id := some "t1" } ∧
    destroy_session [{ uW with session_id := some "t1" }] uW.id =
      .ok [{ uW with session_id := none }] ∧
    get_user_from_session_id [{ uW with session_id := none }] (some "t1") =
      none) :=
  ⟨⟨by decide, by decide, by decide⟩,
   C6_session_roundtrip 1 [] [] uW "t1" "a@b" (by decide) (by decide)
     (by decide) (by decide)⟩

/-- C7: for a registered email, `issue_reset_token` stores the fresh
token on the record and returns it; `update_password` with that token
succeeds, writing the new hash and clearing the token; the same token
a second time fails with `InvalidToken` (single use); and
`validate_login` with the new password is then true.  Token freshness
and distinct primary keys are hypotheses. -/
theorem C7_reset_flow (n salt1 salt2 : Nat) (l1 l2 : List User) (u : User)
    (t1 e newpw anypw : String)
    (hfirst : ∀ v ∈ l1, v.email ≠ e) (hemail : u.email = e)
    (hfresh : ∀ v ∈ l1 ++ u :: l2, v.reset_token ≠ some t1)
    (hids : ((l1 ++ u :: l2).map User.id).Nodup) :
    get_reset_password_token ⟨l1 ++ u :: l2, n⟩ t1 e =
      .ok (t1, ⟨l1 ++ { u with reset_token := some t1 } :: l2, n⟩) ∧
    update_password ⟨l1 ++ { u with reset_token := some t1 } :: l2, n⟩
        salt1 t1 newpw =
      .ok ⟨l1 ++ { u with
        hashed_password := _hash_password salt1 newpw
        reset_token := none } :: l2, n⟩ ∧
    update_password ⟨l1 ++ { u with
        hashed_password := _hash_password salt1 newpw
        reset_token := none } :: l2, n⟩ salt2 t1 anypw =
      .error .invalidToken ∧
    valid_login (l1 ++ { u with
        hashed_password := _hash_password salt1 newpw
        reset_token := none } :: l2) e newpw = true := by
  obtain ⟨hl1, hl2⟩ := nodup_split l1 u l2 hids
  have hfl1 : ∀ v ∈ l1, v.reset_token ≠ some t1 :=
    fun v hv => hfresh v (List.mem_append_left _ hv)
  have hfl2 : ∀ v ∈ l2, v.reset_token ≠ some t1 :=
    fun v hv => hfresh v (List.mem_append_right _ (List.mem_cons_of_mem _ hv))
  refine ⟨?_, ?_, ?_, ?_⟩
  · have hf : find_user_by (l1 ++ u :: l2) (.email e) = .ok u :=
      find_user_by_first _ l1 u l2
        (fun v hv => by simp [matchesFilter, hfirst v hv])
        (by simp [matchesFilter, hemail])
    have hup := update_user_found l1 u l2 { reset_token := some (some t1) } hl1
    simp [get_reset_password_token, hf, hup, applyUpdate]
  · have hf : find_user_by (l1 ++ { u with reset_token := some t1 } :: l2)
        (.reset_token t1) = .ok { u with reset_token := some t1 } :=
      find_user_by_first _ l1 _ l2
        (fun v hv => by simp [matchesFilter, hfl1 v hv])
        (by simp [matchesFilter])
    have hl1' : ∀ v ∈ l1, v.id ≠ ({ u with reset_token := some t1 } : User).id := hl1
    have hup := update_user_found l1 { u with reset_token := some t1 } l2
      { hashed_password := some (_hash_password salt1 newpw),
        reset_token := some none } hl1'
    simp [update_password, hf, hup, applyUpdate]
  · have hnone : find_user_by (l1 ++ { u with
        hashed_password := _hash_password salt1 newpw
        reset_token := none } :: l2) (.reset_token t1) = .error .notFound := by
      apply find_user_by_none
      intro v hv
      rcases List.mem_append.mp hv with h | h
      · simp [matchesFilter, hfl1 v h]
      · rcases List.mem_cons.mp h with rfl | h2
        · simp [matchesFilter]
        · simp [matchesFilter, hfl2 v h2]
    simp [update_password, hnone]
  · have hf : find_user_by (l1 ++ { u with
        hashed_password := _hash_password salt1 newpw
        reset_token := none } :: l2) (.email e) = .ok { u with
          hashed_password := _hash_password salt1 newpw
          reset_token := none } :=
      find_user_by_first _ l1 _ l2
        (fun v hv => by simp [matchesFilter, hfirst v hv])
        (by simp [matchesFilter, hemail])
    simp only [valid_login]
    rw [hf]
    simp [checkpw, _hash_password, hashpw]

/-- Closed instance of C7: full reset flow on a one-record store. -/
theorem C7_witness :
    (uW.email = "a@b" ∧ (∀ v ∈ [uW], v.reset_token ≠ some "r1") ∧
      ([uW].map User.id).Nodup) ∧
    (get_reset_password_token ⟨[uW], 1⟩ "r1" "a@b" =
      .ok ("r1", ⟨[{ uW with reset_token := some "r1" }], 1⟩) ∧
    update_password ⟨[{ uW with reset_token := some "r1" }], 1⟩ 8 "r1" "npw" =
      .ok ⟨[{ uW with
        hashed_password := _hash_password 8 "npw"
        reset_token := none }], 1⟩ ∧
    update_password ⟨[{ uW with
        hashed_password := _hash_password 8 "npw"
        reset_token := none }], 1⟩ 9 "r1" "x" = .error .invalidToken ∧
    valid_login [{ uW with
        hashed_password := _hash_password 8 "npw"
        reset_token := none }] "a@b" "npw" = true) :=
  ⟨⟨by decide, by decide, by decide⟩,
   C7_reset_flow 1 8 9 [] [] uW "r1" "a@b" "npw" "x" (by decide) (by decide)
     (by decide) (by decide)⟩

end AlxAuth
